import Mathlib

/-!
Verification development for the RoboNotes complex music-composition
environment (`complex_env.py`).  The environment is shallowly embedded:
the trajectory is a list of rows (each row a list of integers), the
partial-reward ledger (Python `defaultdict(int)` / plain `dict`) is an
insertion-ordered association list, rewards are rationals, and the
external scoring collaborator `calc_reward` is an explicit function
parameter.
-/

namespace RoboNotes

/-- An info/ledger mapping: insertion-ordered association list from
reward-component name to accumulated numeric value, modelling a Python
`dict` / `defaultdict(int)`. -/
abbrev Ledger := List (String × Rat)

/-- The external scoring collaborator `calc_reward(trajectory, idx)`:
takes the full trajectory buffer and the cursor value, returns a reward
and an info mapping. -/
abbrev Score := List (List Int) → Nat → Rat × Ledger

/-- First-occurrence lookup in an association list (Python `d[k]` /
`k in d` probing). -/
def ledgerGet (led : Ledger) (k : String) : Option Rat :=
  match led with
  | [] => none
  | (k1, v) :: rest => if k1 = k then some v else ledgerGet rest k

/-- `led[k] += v` with `defaultdict(int)` / `d.get(k, 0) + v` semantics:
if the key is present its value is increased in place, otherwise the
entry is created at `0` and `v` added (i.e. appended with value `v`).
Python dicts keep the position of an existing key and append new keys. -/
def ledgerAdd (led : Ledger) (k : String) (v : Rat) : Ledger :=
  match led with
  | [] => [(k, v)]
  | (k1, v1) :: rest =>
    if k1 = k then (k1, v1 + v) :: rest else (k1, v1) :: ledgerAdd rest k v

/-- `for k, v in info.items(): led[k] += v`. -/
def ledgerAddAll (led : Ledger) (info : Ledger) : Ledger :=
  info.foldl (fun l kv => ledgerAdd l kv.1 kv.2) led

/-- The mutable state of a `RoboNotesComplexEnv` instance together with
its immutable configuration (`max_trajectory_len`, `num_pitches`,
`midi_savedir`). -/
structure EnvState where
  maxLen : Nat
  numPitches : Nat
  midiSavedir : Option String
  obsTrajectory : List (List Int)
  trajectoryIdx : Nat
  totalReward : Rat
  rewardsLedger : Ledger
  deriving Repr, DecidableEq

/-- `get_initial_ob`: `np.zeros((max_trajectory_len, num_pitches), dtype=int)`. -/
def get_initial_ob (maxLen numPitches : Nat) : List (List Int) :=
  List.replicate maxLen (List.replicate numPitches 0)

/-- `__init__(max_trajectory_len, num_pitches, midi_savedir)`: stores the
configuration and initializes trajectory, cursor, total reward and the
partial-rewards ledger. -/
def initState (maxLen numPitches : Nat) (midiSavedir : Option String) : EnvState :=
  { maxLen := maxLen
    numPitches := numPitches
    midiSavedir := midiSavedir
    obsTrajectory := get_initial_ob maxLen numPitches
    trajectoryIdx := 0
    totalReward := 0
    rewardsLedger := [] }

/-- `reset(seed, options)`: reallocates the all-zero trajectory, zeroes the
cursor and the total reward, empties the ledger, and returns the fresh
observation together with an empty info dict. -/
def reset (s : EnvState) : EnvState × List (List Int) × Ledger :=
  let s1 : EnvState :=
    { s with
      obsTrajectory := get_initial_ob s.maxLen s.numPitches
      totalReward := 0
      trajectoryIdx := 0
      rewardsLedger := [] }
  (s1, s1.obsTrajectory, [])

/-- The five components returned by `step`. -/
structure StepResult where
  obs : List (List Int)
  reward : Rat
  terminated : Bool
  truncated : Bool
  info : Ledger
  deriving Repr, DecidableEq

/-- `step(action)`: writes the action at the cursor, increments the cursor,
scores the trajectory at the new cursor, accumulates the reward and the
per-key info into the ledger, and returns
`(obs_trajectory, reward, terminated, truncated, info)`. -/
def step (score : Score) (s : EnvState) (action : List Int) : EnvState × StepResult :=
  let tr := s.obsTrajectory.set s.trajectoryIdx action
  let idx := s.trajectoryIdx + 1
  let ri := score tr idx
  let terminated : Bool := decide (s.maxLen ≤ idx)
  let truncated : Bool := false
  ({ s with
      obsTrajectory := tr
      trajectoryIdx := idx
      totalReward := s.totalReward + ri.1
      rewardsLedger := ledgerAddAll s.rewardsLedger ri.2 },
   { obs := tr
     reward := ri.1
     terminated := terminated
     truncated := truncated
     info := ri.2 })

/-- Runs a sequence of `step` calls, returning the final state and the
list of per-call results. -/
def runEpisode (score : Score) (s : EnvState) : List (List Int) → EnvState × List StepResult
  | [] => (s, [])
  | a :: as =>
    let sr := step score s a
    let rest := runEpisode score sr.1 as
    (rest.1, sr.2 :: rest.2)

/-- The reward/info bookkeeping of the static method `save_midi`:
`for t in range(1, len(trajectory)): reward, info = calc_reward(trajectory, t);
total_reward += reward; total_info[k] = total_info.get(k, 0) + info[k]`. -/
def save_midi_totals (score : Score) (trajectory : List (List Int)) : Rat × Ledger :=
  (List.range' 1 (trajectory.length - 1)).foldl
    (fun acc t => (acc.1 + (score trajectory t).1, ledgerAddAll acc.2 (score trajectory t).2))
    ((0 : Rat), ([] : Ledger))

/-- A Gym `spaces.Box(low, high, shape, dtype=int)` declaration.  Gym Box
bounds are inclusive: `Box.contains` accepts an integer array of the
declared shape whose every component x satisfies low <= x and x <= high
(consistently, the code comment counts 36 pitches plus the two special
codes 0 and 1 among the values 0..37). -/
structure BoxSpace where
  low : Int
  high : Int
  shape : List Nat
  deriving Repr, DecidableEq

/-- `spaces.Box(low=0, high=37, shape=(num_pitches,), dtype=int)`. -/
def action_space (numPitches : Nat) : BoxSpace :=
  { low := 0, high := 37, shape := [numPitches] }

/-- `spaces.Box(low=0, high=37, shape=(max_trajectory_len, num_pitches), dtype=int)`. -/
def observation_space (maxLen numPitches : Nat) : BoxSpace :=
  { low := 0, high := 37, shape := [maxLen, numPitches] }

/-- Membership of an integer vector in a 1-D Box: declared shape matches
and every component lies within the inclusive bounds. -/
def BoxSpace.memVec (b : BoxSpace) (v : List Int) : Prop :=
  b.shape = [v.length] ∧ ∀ x ∈ v, b.low ≤ x ∧ x ≤ b.high

/-- Membership of an integer matrix in a 2-D Box: declared shape matches
and every component lies within the inclusive bounds. -/
def BoxSpace.memMat (b : BoxSpace) (m : List (List Int)) : Prop :=
  (∃ c, b.shape = [m.length, c] ∧ ∀ row ∈ m, row.length = c) ∧
    ∀ row ∈ m, ∀ x ∈ row, b.low ≤ x ∧ x ≤ b.high

/-- A broken-down local time together with its epoch seconds, as consumed
by `time.strftime` on the directives this program uses. -/
structure Tm where
  mon : Nat
  mday : Nat
  year2 : Nat
  hour : Nat
  minute : Nat
  epochSecs : Nat
  deriving Repr, DecidableEq

/-- Zero-padded two-digit rendering used by the numeric `strftime`
directives. -/
def pad2 (n : Nat) : String :=
  if n < 10 then "0" ++ toString n else toString n

/-- Model of `time.strftime` on the directives appearing in this program:
`%m` month, `%d` day of month, `%y` two-digit year, `%H` hour, `%M`
minute (all zero-padded) and glibc's `%s`, the seconds since the epoch.
Every other character is copied verbatim. -/
def strftime : List Char → Tm → String
  | [], _ => ""
  | '%' :: c :: rest, t =>
    (if c = 'm' then pad2 t.mon
     else if c = 'd' then pad2 t.mday
     else if c = 'y' then pad2 t.year2
     else if c = 'H' then pad2 t.hour
     else if c = 'M' then pad2 t.minute
     else if c = 's' then toString t.epochSecs
     else String.mk ['%', c]) ++ strftime rest t
  | c :: rest, t => String.mk [c] ++ strftime rest t

/-- The timestamp of `save_midi`: `time.strftime` applied to the format
string of line 96, which reads percent m, dash, percent d, dash,
percent y, underscore, percent H, percent M. -/
def save_midi_timestamp (t : Tm) : String :=
  strftime "%m-%d-%y_%H%M".data t

/-- The timestamp of `render`: `time.strftime` applied to the format
string of line 114, which carries one more directive, a trailing
percent s, than the `save_midi` format. -/
def render_timestamp (t : Tm) : String :=
  strftime "%m-%d-%y_%H%M%s".data t

/-- The file name built by `save_midi`: ts, the timestamp, _ep, the row
count, and the .midi suffix. -/
def save_midi_fname (t : Tm) (rows : Nat) : String :=
  "ts" ++ save_midi_timestamp t ++ "_ep" ++ toString rows ++ ".midi"

/-- The file name built by `render`: ts, the timestamp, _ep, the row
count, and the .midi suffix. -/
def render_fname (t : Tm) (rows : Nat) : String :=
  "ts" ++ render_timestamp t ++ "_ep" ++ toString rows ++ ".midi"

/-- The observable output of a `render` or `save_midi` call: the four
printed diagnostic items and the list of file paths written. -/
structure RenderOutput where
  shownTotalReward : Rat
  shownLedger : Ledger
  shownTrajectory : List (List Int)
  shownMidi : List Nat
  filesWritten : List String
  deriving Repr, DecidableEq

/-- `render(mode)`: prints the total reward, the partial-rewards ledger,
the trajectory and its MIDI encoding, and, when a directory is
configured, writes exactly one MIDI file there.  `encode` stands for the
external `convert_observation_to_midi_sequence` collaborator, `mode` is
accepted and ignored, `t` is the wall-clock time the call observes, and
`os.path.join` is modelled as a slash-separated concatenation.  The
method body assigns no attribute of `self`, so the post-state is the
state it was called on. -/
def render (encode : List (List Int) → List Nat) (s : EnvState)
    (mode : String) (t : Tm) : EnvState × RenderOutput :=
  (s,
   { shownTotalReward := s.totalReward
     shownLedger := s.rewardsLedger
     shownTrajectory := s.obsTrajectory
     shownMidi := encode s.obsTrajectory
     filesWritten :=
       match s.midiSavedir with
       | none => []
       | some dir => [dir ++ "/" ++ render_fname t s.obsTrajectory.length] })

/-- The static method `save_midi(trajectory, midi_savedir)`: re-scores the
trajectory with cursors 1..length-1 (`save_midi_totals`), prints the four
diagnostic items, and writes exactly one MIDI file when a directory is
supplied. -/
def save_midi (score : Score) (encode : List (List Int) → List Nat)
    (trajectory : List (List Int)) (midiSavedir : Option String) (t : Tm) :
    RenderOutput :=
  { shownTotalReward := (save_midi_totals score trajectory).1
    shownLedger := (save_midi_totals score trajectory).2
    shownTrajectory := trajectory
    shownMidi := encode trajectory
    filesWritten :=
      match midiSavedir with
      | none => []
      | some dir => [dir ++ "/" ++ save_midi_fname t trajectory.length] }

/-- A trajectory buffer whose first `pre.length` rows hold the actions of
`pre` and whose remaining rows (up to length `N`) are still the all-zero
placeholder rows. -/
def filled (N p : Nat) (pre : List (List Int)) : List (List Int) :=
  pre ++ List.replicate (N - pre.length) (List.replicate p 0)

/-- A mid-episode environment state: the first `pre.length` rows are
filled with the actions of `pre` and the cursor sits right after them. -/
def midSt (N p : Nat) (d : Option String) (pre : List (List Int)) (tr : Rat)
    (lg : Ledger) : EnvState :=
  { maxLen := N
    numPitches := p
    midiSavedir := d
    obsTrajectory := filled N p pre
    trajectoryIdx := pre.length
    totalReward := tr
    rewardsLedger := lg }

theorem initState_eq_midSt (N p : Nat) (d : Option String) :
    initState N p d = midSt N p d [] 0 [] := rfl

theorem set_append_length {α : Type} (l1 l2 : List α) (a : α) :
    (l1 ++ l2).set l1.length a = l1 ++ l2.set 0 a := by
  induction l1 with
  | nil => rfl
  | cons x xs ih => simp [ih]

/-- Writing one more action at the cursor of a partially filled buffer
extends the filled part by one row. -/
theorem filled_set (N p : Nat) (pre : List (List Int)) (a : List Int)
    (h : pre.length < N) :
    (filled N p pre).set pre.length a = filled N p (pre ++ [a]) := by
  unfold filled
  rw [set_append_length]
  have hm : N - pre.length = (N - (pre.length + 1)) + 1 := by omega
  rw [hm]
  simp [List.replicate_succ]

theorem filled_take (N p : Nat) (pre : List (List Int)) (t : Nat)
    (h : t ≤ pre.length) :
    (filled N p pre).take t = pre.take t := by
  unfold filled
  rw [List.take_append_of_le_length h]

theorem filled_of_length_eq (N p : Nat) (pre : List (List Int))
    (h : pre.length = N) : filled N p pre = pre := by
  unfold filled
  simp [h]

/-- One `step` from a mid-episode state: the action row is appended to the
filled part, the cursor moves one row, the reward of the extended buffer
at the new cursor is accumulated, and its info merged into the ledger. -/
theorem step_midSt (score : Score) (N p : Nat) (d : Option String)
    (pre : List (List Int)) (tr : Rat) (lg : Ledger) (a : List Int)
    (h : pre.length < N) :
    step score (midSt N p d pre tr lg) a =
      (midSt N p d (pre ++ [a])
         (tr + (score (filled N p (pre ++ [a])) (pre.length + 1)).1)
         (ledgerAddAll lg (score (filled N p (pre ++ [a])) (pre.length + 1)).2),
       { obs := filled N p (pre ++ [a])
         reward := (score (filled N p (pre ++ [a])) (pre.length + 1)).1
         terminated := decide (N ≤ pre.length + 1)
         truncated := false
         info := (score (filled N p (pre ++ [a])) (pre.length + 1)).2 }) := by
  simp [step, midSt, filled_set N p pre a h]

theorem runEpisode_nil (score : Score) (s : EnvState) :
    runEpisode score s [] = (s, []) := rfl

theorem runEpisode_cons (score : Score) (s : EnvState) (a : List Int)
    (as : List (List Int)) :
    runEpisode score s (a :: as) =
      ((runEpisode score (step score s a).1 as).1,
       (step score s a).2 :: (runEpisode score (step score s a).1 as).2) := rfl

/-- Closed form of a run of `step` calls from a mid-episode state, for a
scoring function that only reads the rows strictly below the cursor value
it is given (hypothesis `hsc`).  `T` is any buffer that agrees with the
episode's actions on every prefix (in applications: the final
trajectory). -/
theorem runEpisode_midSt (score : Score) (N p : Nat) (d : Option String)
    (T : List (List Int))
    (hsc : ∀ u v t, u.take t = v.take t → score u t = score v t)
    (rest : List (List Int)) :
    ∀ (pre : List (List Int)) (tr : Rat) (lg : Ledger),
      pre.length + rest.length ≤ N →
      (∀ j, j ≤ rest.length → T.take (pre.length + j) = pre ++ rest.take j) →
      runEpisode score (midSt N p d pre tr lg) rest =
        (midSt N p d (pre ++ rest)
           (tr + ((List.range' (pre.length + 1) rest.length).map
                    (fun t => (score T t).1)).sum)
           (((List.range' (pre.length + 1) rest.length).map
               (fun t => (score T t).2)).foldl ledgerAddAll lg),
         (List.range' (pre.length + 1) rest.length).map (fun t =>
           { obs := filled N p (T.take t)
             reward := (score T t).1
             terminated := decide (N ≤ t)
             truncated := false
             info := (score T t).2 })) := by
  induction rest with
  | nil =>
    intro pre tr lg hle hT
    simp [runEpisode]
  | cons a rest2 ih =>
    intro pre tr lg hle hT
    have h1 : pre.length < N := by
      simp only [List.length_cons] at hle; omega
    have hTa : T.take (pre.length + 1) = pre ++ [a] := by
      have h2 := hT 1 (by simp)
      simpa using h2
    have hfill : (filled N p (pre ++ [a])).take (pre.length + 1) = pre ++ [a] := by
      rw [filled_take N p (pre ++ [a]) (pre.length + 1) (by simp)]
      exact List.take_of_length_le (by simp)
    have hkey : score (filled N p (pre ++ [a])) (pre.length + 1)
        = score T (pre.length + 1) :=
      hsc _ _ _ (hfill.trans hTa.symm)
    have hT2 : ∀ j, j ≤ rest2.length →
        T.take ((pre ++ [a]).length + j) = (pre ++ [a]) ++ rest2.take j := by
      intro j hj
      have h2 := hT (j + 1) (by simpa using Nat.succ_le_succ hj)
      have h3 : (pre ++ [a]).length + j = pre.length + (j + 1) := by
        simp only [List.length_append, List.length_cons, List.length_nil]
        omega
      rw [h3, h2]
      simp only [List.take_succ_cons, List.append_assoc, List.singleton_append]
    have hle2 : (pre ++ [a]).length + rest2.length ≤ N := by
      simp only [List.length_append, List.length_cons, List.length_nil] at hle ⊢
      omega
    have hrun := ih (pre ++ [a]) (tr + (score T (pre.length + 1)).1)
      (ledgerAddAll lg (score T (pre.length + 1)).2) hle2 hT2
    rw [runEpisode_cons, step_midSt score N p d pre tr lg a h1]
    simp only [hkey, hrun]
    simp only [List.range'_succ, List.map_cons, List.sum_cons, List.foldl_cons,
      hTa, List.append_assoc, List.singleton_append, List.length_append,
      List.length_cons, List.length_nil, add_assoc, Nat.zero_add, Nat.add_zero]

theorem step_fst_maxLen (score : Score) (s : EnvState) (a : List Int) :
    (step score s a).1.maxLen = s.maxLen := rfl

theorem step_fst_idx (score : Score) (s : EnvState) (a : List Int) :
    (step score s a).1.trajectoryIdx = s.trajectoryIdx + 1 := rfl

theorem step_snd_terminated (score : Score) (s : EnvState) (a : List Int) :
    (step score s a).2.terminated = decide (s.maxLen ≤ s.trajectoryIdx + 1) := rfl

theorem step_snd_truncated (score : Score) (s : EnvState) (a : List Int) :
    (step score s a).2.truncated = false := rfl

theorem step_fst_totalReward (score : Score) (s : EnvState) (a : List Int) :
    (step score s a).1.totalReward = s.totalReward + (step score s a).2.reward := rfl

/-- The `terminated` flags of any run, in order: the cursor values after
each call, compared against `maxLen` (the `>=` test of `step`). -/
theorem trace_terminated (score : Score) (rest : List (List Int)) :
    ∀ s : EnvState, ((runEpisode score s rest).2).map StepResult.terminated
      = (List.range' (s.trajectoryIdx + 1) rest.length).map
          (fun t => decide (s.maxLen ≤ t)) := by
  induction rest with
  | nil => intro s; simp [runEpisode_nil]
  | cons a rest2 ih =>
    intro s
    rw [runEpisode_cons]
    simp only [List.map_cons, List.length_cons, List.range'_succ]
    rw [ih ((step score s a).1)]
    simp [step_fst_idx, step_fst_maxLen, step_snd_terminated, Nat.add_assoc]

/-- The `truncated` flag of every call of any run is `false`. -/
theorem trace_truncated (score : Score) (rest : List (List Int)) :
    ∀ s : EnvState, ((runEpisode score s rest).2).map StepResult.truncated
      = List.replicate rest.length false := by
  induction rest with
  | nil => intro s; simp [runEpisode_nil]
  | cons a rest2 ih =>
    intro s
    rw [runEpisode_cons]
    simp only [List.map_cons, List.length_cons, List.replicate_succ]
    rw [ih ((step score s a).1)]
    simp [step_snd_truncated]

/-- Bookkeeping invariant: the total reward after a run exceeds the total
reward before it by exactly the sum of the rewards returned by the calls. -/
theorem run_totalReward (score : Score) (rest : List (List Int)) :
    ∀ s : EnvState, (runEpisode score s rest).1.totalReward
      = s.totalReward + (((runEpisode score s rest).2).map StepResult.reward).sum := by
  induction rest with
  | nil => intro s; simp [runEpisode_nil]
  | cons a rest2 ih =>
    intro s
    rw [runEpisode_cons]
    simp only [List.map_cons, List.sum_cons]
    rw [ih ((step score s a).1)]
    simp [step_fst_totalReward, add_assoc]

/-- Running any number of steps from a mid-episode state (staying within
the configured length) lands in the mid-episode state whose filled part
is extended by the supplied actions, for some total reward and ledger. -/
theorem run_toMidSt (score : Score) (N p : Nat) (d : Option String)
    (rest : List (List Int)) :
    ∀ (pre : List (List Int)) (tr : Rat) (lg : Ledger),
      pre.length + rest.length ≤ N →
      ∃ tr2 lg2, (runEpisode score (midSt N p d pre tr lg) rest).1
        = midSt N p d (pre ++ rest) tr2 lg2 := by
  induction rest with
  | nil =>
    intro pre tr lg h
    exact ⟨tr, lg, by simp [runEpisode_nil]⟩
  | cons a rest2 ih =>
    intro pre tr lg h
    have h1 : pre.length < N := by
      simp only [List.length_cons] at h; omega
    have h2 : (pre ++ [a]).length + rest2.length ≤ N := by
      simp only [List.length_append, List.length_cons, List.length_nil] at h ⊢
      omega
    obtain ⟨tr2, lg2, heq⟩ := ih (pre ++ [a])
      (tr + (score (filled N p (pre ++ [a])) (pre.length + 1)).1)
      (ledgerAddAll lg (score (filled N p (pre ++ [a])) (pre.length + 1)).2) h2
    refine ⟨tr2, lg2, ?_⟩
    rw [runEpisode_cons, step_midSt score N p d pre tr lg a h1]
    simpa [List.append_assoc] using heq

theorem ledgerGet_ledgerAdd_self (led : Ledger) (k : String) (v : Rat) :
    ledgerGet (ledgerAdd led k v) k = some ((ledgerGet led k).getD 0 + v) := by
  induction led with
  | nil => simp [ledgerAdd, ledgerGet]
  | cons kv rest ih =>
    obtain ⟨k1, v1⟩ := kv
    by_cases h : k1 = k
    · subst h
      simp [ledgerAdd, ledgerGet]
    · simp [ledgerAdd, ledgerGet, h, ih]

theorem ledgerGet_ledgerAdd_ne (led : Ledger) (k k2 : String) (v : Rat)
    (h : k2 ≠ k) : ledgerGet (ledgerAdd led k v) k2 = ledgerGet led k2 := by
  induction led with
  | nil => simp [ledgerAdd, ledgerGet, Ne.symm h]
  | cons kv rest ih =>
    obtain ⟨k1, v1⟩ := kv
    by_cases h1 : k1 = k
    · subst h1
      simp [ledgerAdd, ledgerGet, Ne.symm h]
    · simp [ledgerAdd, ledgerGet, h1, ih]

theorem ledgerGet_none_of_not_mem (info : Ledger) (k : String)
    (h : k ∉ info.map Prod.fst) : ledgerGet info k = none := by
  induction info with
  | nil => rfl
  | cons kv rest ih =>
    obtain ⟨k1, v1⟩ := kv
    simp only [List.map_cons, List.mem_cons, not_or] at h
    have h1 : ¬ (k1 = k) := fun hh => h.1 hh.symm
    simp [ledgerGet, h1, ih h.2]

theorem ledgerGet_addAll_of_none (info : Ledger) :
    ∀ (led : Ledger) (k : String), ledgerGet info k = none →
      ledgerGet (ledgerAddAll led info) k = ledgerGet led k := by
  induction info with
  | nil => intro led k _; rfl
  | cons kv rest ih =>
    intro led k h
    obtain ⟨k1, v1⟩ := kv
    have h1 : ¬ (k1 = k) := by
      intro hh
      simp [ledgerGet, hh] at h
    have h2 : ledgerGet rest k = none := by
      simpa [ledgerGet, h1] using h
    show ledgerGet (ledgerAddAll (ledgerAdd led k1 v1) rest) k = ledgerGet led k
    rw [ih _ _ h2]
    exact ledgerGet_ledgerAdd_ne led k1 k v1 (Ne.symm h1)

theorem ledgerGet_addAll_of_some (info : Ledger) :
    ∀ (led : Ledger) (k : String) (v : Rat),
      (info.map Prod.fst).Nodup → ledgerGet info k = some v →
      ledgerGet (ledgerAddAll led info) k
        = some ((ledgerGet led k).getD 0 + v) := by
  induction info with
  | nil =>
    intro led k v _ h
    simp [ledgerGet] at h
  | cons kv rest ih =>
    intro led k v hnd h
    obtain ⟨k1, v1⟩ := kv
    simp only [List.map_cons, List.nodup_cons] at hnd
    by_cases hk : k1 = k
    · subst hk
      have hv : v1 = v := by
        simpa [ledgerGet] using h
      have hrest : ledgerGet rest k1 = none :=
        ledgerGet_none_of_not_mem rest k1 hnd.1
      subst hv
      show ledgerGet (ledgerAddAll (ledgerAdd led k1 v1) rest) k1 = _
      rw [ledgerGet_addAll_of_none rest _ _ hrest, ledgerGet_ledgerAdd_self]
    · have h2 : ledgerGet rest k = some v := by
        simpa [ledgerGet, hk] using h
      show ledgerGet (ledgerAddAll (ledgerAdd led k1 v1) rest) k = _
      rw [ih _ _ _ hnd.2 h2,
        ledgerGet_ledgerAdd_ne led k1 k v1 (fun hh => hk hh.symm)]

theorem foldl_pair {α : Type} (f : α → Rat) (g : α → Ledger) (l : List α) :
    ∀ acc : Rat × Ledger,
      l.foldl (fun acc x => (acc.1 + f x, ledgerAddAll acc.2 (g x))) acc
        = (acc.1 + (l.map f).sum, (l.map g).foldl ledgerAddAll acc.2) := by
  induction l with
  | nil => intro acc; simp
  | cons x xs ih =>
    intro acc
    simp only [List.foldl_cons, List.map_cons, List.sum_cons]
    rw [ih]
    simp [add_assoc]

/-- The two accumulators of `save_midi` in closed form: the sum of the
rewards and the additive merge of the infos over cursors 1..length-1. -/
theorem save_midi_totals_eq (score : Score) (trajectory : List (List Int)) :
    save_midi_totals score trajectory =
      (((List.range' 1 (trajectory.length - 1)).map
          (fun t => (score trajectory t).1)).sum,
       ((List.range' 1 (trajectory.length - 1)).map
          (fun t => (score trajectory t).2)).foldl ledgerAddAll []) := by
  unfold save_midi_totals
  rw [foldl_pair (fun t => (score trajectory t).1) (fun t => (score trajectory t).2)]
  simp

/-- C1 counterexample: with the scoring function that always returns
reward 1 and an empty info, the `save_midi` total over the complete
2-step trajectory is 1 (cursors 1..1), while the live 2-step episode on
the same actions accumulates 2 (cursors 1..2): the claimed equality with
the live cumulative reward fails. -/
theorem save_midi_total_diverges_from_episode :
    (save_midi_totals (fun _ _ => ((1 : Rat), ([] : Ledger))) [[0], [0]]).1
      ≠ (runEpisode (fun _ _ => ((1 : Rat), ([] : Ledger)))
          (initState 2 1 none) [[0], [0]]).1.totalReward := by
  norm_num [save_midi_totals, runEpisode, step, initState, get_initial_ob,
    ledgerAddAll]

/-- C1 (amended): `save_midi` on the complete trajectory of an episode of
length N totals the rewards of the scoring calls with cursors 1..N-1 and
merges their infos additively; for a scoring function that reads only the
rows below the cursor value it is given, this equals the cumulative
reward (and ledger) accumulated by the first N-1 live step calls on the
same action sequence, while the full N-call live episode accumulates
exactly one more term, the score of the complete trajectory at cursor
N. -/
theorem save_midi_totals_vs_episode (score : Score) (N p : Nat)
    (d : Option String) (acts : List (List Int))
    (hsc : ∀ u v t, List.take t u = List.take t v → score u t = score v t)
    (hlen : acts.length = N) (hN : 1 ≤ N) :
    (runEpisode score (initState N p d) acts).1.obsTrajectory = acts ∧
    (save_midi_totals score acts).1
      = ((List.range' 1 (N - 1)).map (fun t => (score acts t).1)).sum ∧
    (save_midi_totals score acts).1
      = (runEpisode score (initState N p d) (acts.take (N - 1))).1.totalReward ∧
    (save_midi_totals score acts).2
      = (runEpisode score (initState N p d) (acts.take (N - 1))).1.rewardsLedger ∧
    (runEpisode score (initState N p d) acts).1.totalReward
      = (save_midi_totals score acts).1 + (score acts N).1 := by
  have hfull := runEpisode_midSt score N p d acts hsc acts [] 0 []
    (by simp [hlen]) (by intro j hj; simp)
  have hlen2 : (acts.take (N - 1)).length = N - 1 := by
    simp [List.length_take, hlen]
  have htake := runEpisode_midSt score N p d acts hsc (acts.take (N - 1)) [] 0 []
    (by simp only [List.length_nil, Nat.zero_add, hlen2]; omega)
    (by
      intro j hj
      rw [hlen2] at hj
      simp only [List.length_nil, Nat.zero_add, List.nil_append]
      rw [List.take_take]
      congr 1
      omega)
  have hsplit : List.range' 1 N = List.range' 1 (N - 1) ++ [N] := by
    calc List.range' 1 N = List.range' 1 ((N - 1) + 1) := by
          rw [show (N - 1) + 1 = N by omega]
      _ = List.range' 1 (N - 1) ++ [1 + (N - 1)] := List.range'_1_concat 1 (N - 1)
      _ = List.range' 1 (N - 1) ++ [N] := by rw [show 1 + (N - 1) = N by omega]
  rw [initState_eq_midSt, hfull, htake, save_midi_totals_eq]
  refine ⟨?_, ?_, ?_, ?_, ?_⟩
  · simp only [midSt, List.nil_append]
    exact filled_of_length_eq N p acts hlen
  · simp [hlen]
  · simp [midSt, hlen, hlen2]
  · simp [midSt, hlen, hlen2]
  · simp only [midSt, List.length_nil, Nat.zero_add, hlen, hsplit]
    simp

/-- C1 witness: the amended statement applied to the 2-step episode with
actions [[5]] and [[7]], one pitch per step, and the scoring function
returning the cursor value as reward. -/
theorem save_midi_totals_vs_episode_witness :
    (∀ (u v : List (List Int)) (t : Nat),
        List.take t u = List.take t v →
        (fun (_ : List (List Int)) (t : Nat) => ((t : Rat), ([] : Ledger))) u t
          = (fun (_ : List (List Int)) (t : Nat) => ((t : Rat), ([] : Ledger))) v t) ∧
    ([[5], [7]] : List (List Int)).length = 2 ∧ 1 ≤ 2 ∧
    ((runEpisode (fun _ t => ((t : Rat), ([] : Ledger)))
        (initState 2 1 none) [[5], [7]]).1.obsTrajectory = [[5], [7]] ∧
     (save_midi_totals (fun _ t => ((t : Rat), ([] : Ledger))) [[5], [7]]).1
       = ((List.range' 1 (2 - 1)).map
           (fun t => ((fun (_ : List (List Int)) (t : Nat) => ((t : Rat), ([] : Ledger))) [[5], [7]] t).1)).sum ∧
     (save_midi_totals (fun _ t => ((t : Rat), ([] : Ledger))) [[5], [7]]).1
       = (runEpisode (fun _ t => ((t : Rat), ([] : Ledger)))
           (initState 2 1 none) (([[5], [7]] : List (List Int)).take (2 - 1))).1.totalReward ∧
     (save_midi_totals (fun _ t => ((t : Rat), ([] : Ledger))) [[5], [7]]).2
       = (runEpisode (fun _ t => ((t : Rat), ([] : Ledger)))
           (initState 2 1 none) (([[5], [7]] : List (List Int)).take (2 - 1))).1.rewardsLedger ∧
     (runEpisode (fun _ t => ((t : Rat), ([] : Ledger)))
         (initState 2 1 none) [[5], [7]]).1.totalReward
       = (save_midi_totals (fun _ t => ((t : Rat), ([] : Ledger))) [[5], [7]]).1
           + ((fun (_ : List (List Int)) (t : Nat) => ((t : Rat), ([] : Ledger))) [[5], [7]] 2).1) :=
  ⟨fun _ _ _ _ => rfl, rfl, by decide,
    save_midi_totals_vs_episode (fun _ t => ((t : Rat), ([] : Ledger))) 2 1 none
      [[5], [7]] (fun _ _ _ _ => rfl) rfl (by decide)⟩

/-- C2: after a reset (the freshly constructed state) and any sequence of
step calls made under the precondition cursor < maxLength, the cursor
equals the number of actions supplied, every trajectory row below the
cursor equals the correspondingly numbered action supplied since the
reset, and every row at or beyond the cursor is still the all-zero
placeholder row. -/
theorem trajectory_rows_invariant (score : Score) (N p : Nat)
    (d : Option String) (acts : List (List Int)) (hle : acts.length ≤ N) :
    (runEpisode score (initState N p d) acts).1.trajectoryIdx = acts.length ∧
    (∀ k, k < acts.length →
      (runEpisode score (initState N p d) acts).1.obsTrajectory[k]? = acts[k]?) ∧
    (∀ k, acts.length ≤ k → k < N →
      (runEpisode score (initState N p d) acts).1.obsTrajectory[k]?
        = some (List.replicate p 0)) := by
  obtain ⟨tr2, lg2, heq⟩ := run_toMidSt score N p d acts [] 0 [] (by simpa using hle)
  rw [initState_eq_midSt, heq]
  refine ⟨by simp [midSt], ?_, ?_⟩
  · intro k hk
    simp only [midSt, filled, List.nil_append]
    exact List.getElem?_append_left hk
  · intro k h1 h2
    simp only [midSt, filled, List.nil_append]
    rw [List.getElem?_append_right h1, List.getElem?_replicate_of_lt (by omega)]

/-- C2 witness: the invariant applied after two steps of a 3-step, 2-pitch
episode with actions [[5,0]] and [[0,3]]. -/
theorem trajectory_rows_invariant_witness :
    ([[5, 0], [0, 3]] : List (List Int)).length ≤ 3 ∧
    ((runEpisode (fun _ _ => ((0 : Rat), ([] : Ledger)))
        (initState 3 2 none) [[5, 0], [0, 3]]).1.trajectoryIdx
      = ([[5, 0], [0, 3]] : List (List Int)).length ∧
    (∀ k, k < ([[5, 0], [0, 3]] : List (List Int)).length →
      (runEpisode (fun _ _ => ((0 : Rat), ([] : Ledger)))
        (initState 3 2 none) [[5, 0], [0, 3]]).1.obsTrajectory[k]?
        = ([[5, 0], [0, 3]] : List (List Int))[k]?) ∧
    (∀ k, ([[5, 0], [0, 3]] : List (List Int)).length ≤ k → k < 3 →
      (runEpisode (fun _ _ => ((0 : Rat), ([] : Ledger)))
        (initState 3 2 none) [[5, 0], [0, 3]]).1.obsTrajectory[k]?
        = some (List.replicate 2 0))) :=
  ⟨by decide,
   trajectory_rows_invariant (fun _ _ => ((0 : Rat), ([] : Ledger))) 3 2 none
     [[5, 0], [0, 3]] (by decide)⟩

theorem range'_map_decide_le (m : Nat) :
    (List.range' 1 (m + 1)).map (fun t => decide (m + 1 ≤ t))
      = List.replicate m false ++ [true] := by
  rw [List.range'_1_concat, List.map_append]
  congr 1
  · refine List.eq_replicate_iff.mpr ⟨by simp, ?_⟩
    intro b hb
    simp only [List.mem_map] at hb
    obtain ⟨t, ht, rfl⟩ := hb
    have h1 := List.mem_range'_1.mp ht
    simp only [decide_eq_false_iff_not]
    omega
  · simp [Nat.add_comm]

/-- C3: across an episode of exactly maxLength steps after a reset, the
terminated flag is false on each of the first maxLength - 1 calls and
true exactly on the last one, the truncated flag is false on every call,
and a step's terminated flag is true exactly when the incremented cursor
equals maxLength (the `>=` test of the code collapses to equality under
the precondition; no other condition terminates). -/
theorem terminated_exactly_at_maxLength (score : Score) (N p : Nat)
    (d : Option String) (acts : List (List Int)) (hlen : acts.length = N)
    (hN : 1 ≤ N) :
    ((runEpisode score (initState N p d) acts).2).map StepResult.terminated
      = List.replicate (N - 1) false ++ [true] ∧
    ((runEpisode score (initState N p d) acts).2).map StepResult.truncated
      = List.replicate N false ∧
    (∀ (s : EnvState) (a : List Int), s.trajectoryIdx < s.maxLen →
      ((step score s a).2.terminated = true ↔
        (step score s a).1.trajectoryIdx = s.maxLen)) := by
  refine ⟨?_, ?_, ?_⟩
  · rw [trace_terminated]
    obtain ⟨m, rfl⟩ := Nat.exists_eq_add_of_le hN
    simp only [initState, hlen]
    have := range'_map_decide_le m
    simpa [Nat.add_comm 1 m] using this
  · rw [trace_truncated]
    simp [hlen]
  · intro s a h
    rw [step_snd_terminated, step_fst_idx]
    simp only [decide_eq_true_eq]
    omega

/-- C3 witness: a 2-step episode; the flags are [false, true] and
[false, false]. -/
theorem terminated_exactly_at_maxLength_witness :
    ([[1], [2]] : List (List Int)).length = 2 ∧ 1 ≤ 2 ∧
    (((runEpisode (fun _ _ => ((0 : Rat), ([] : Ledger)))
        (initState 2 1 none) [[1], [2]]).2).map StepResult.terminated
      = List.replicate (2 - 1) false ++ [true] ∧
    ((runEpisode (fun _ _ => ((0 : Rat), ([] : Ledger)))
        (initState 2 1 none) [[1], [2]]).2).map StepResult.truncated
      = List.replicate 2 false ∧
    (∀ (s : EnvState) (a : List Int), s.trajectoryIdx < s.maxLen →
      ((step (fun _ _ => ((0 : Rat), ([] : Ledger))) s a).2.terminated = true ↔
        (step (fun _ _ => ((0 : Rat), ([] : Ledger))) s a).1.trajectoryIdx
          = s.maxLen))) :=
  ⟨rfl, by decide,
   terminated_exactly_at_maxLength (fun _ _ => ((0 : Rat), ([] : Ledger))) 2 1
     none [[1], [2]] rfl (by decide)⟩

/-- C4: at every point of an episode (after a reset of any state,
within the configured length), the internally tracked cumulative reward
equals the sum of the rewards returned by the step calls made since that
reset; in particular this holds at episode end. -/
theorem totalReward_eq_sum_returned (score : Score) (s : EnvState)
    (acts : List (List Int)) (_hle : acts.length ≤ s.maxLen) :
    (runEpisode score (reset s).1 acts).1.totalReward
      = (((runEpisode score (reset s).1 acts).2).map StepResult.reward).sum := by
  rw [run_totalReward]
  simp [reset]

/-- C4 witness: a 2-step run after resetting a fresh 3-step environment,
with the scoring function returning the cursor value as reward. -/
theorem totalReward_eq_sum_returned_witness :
    ([[1], [2]] : List (List Int)).length ≤ (initState 3 1 none).maxLen ∧
    (runEpisode (fun _ t => ((t : Rat), ([] : Ledger)))
        (reset (initState 3 1 none)).1 [[1], [2]]).1.totalReward
      = (((runEpisode (fun _ t => ((t : Rat), ([] : Ledger)))
          (reset (initState 3 1 none)).1 [[1], [2]]).2).map StepResult.reward).sum :=
  ⟨by decide,
   totalReward_eq_sum_returned (fun _ t => ((t : Rat), ([] : Ledger)))
     (initState 3 1 none) [[1], [2]] (by decide)⟩

/-- C5: resetting any state always succeeds and yields exactly the
freshly initialized environment: an all-zero observation of shape
maxLength x numPitches, cursor 0, cumulative reward 0, empty ledger and
empty returned info; only the construction-time configuration survives,
so nothing of the previous trajectory or ledger carries over. -/
theorem reset_reinitializes (s : EnvState) :
    reset s =
      ({ maxLen := s.maxLen
         numPitches := s.numPitches
         midiSavedir := s.midiSavedir
         obsTrajectory := List.replicate s.maxLen (List.replicate s.numPitches 0)
         trajectoryIdx := 0
         totalReward := 0
         rewardsLedger := [] },
       List.replicate s.maxLen (List.replicate s.numPitches 0), ([] : Ledger)) :=
  rfl

/-- C6: one step under the precondition cursor < maxLength writes the
given action into the trajectory row at the cursor and changes no other
row, increments the cursor by exactly one, invokes the scoring function
with the full updated trajectory buffer and the new cursor value, and
returns the full buffer as the observation, the step's own reward and the
scoring function's per-step info mapping, while the cumulative reward
grows by exactly that reward (so the returned reward is not the
cumulative one, and the returned info is not the ledger). -/
theorem step_contract (score : Score) (s : EnvState) (a : List Int)
    (hlen : s.obsTrajectory.length = s.maxLen)
    (hlt : s.trajectoryIdx < s.maxLen) :
    (step score s a).1.obsTrajectory[s.trajectoryIdx]? = some a ∧
    (∀ k, k ≠ s.trajectoryIdx →
      (step score s a).1.obsTrajectory[k]? = s.obsTrajectory[k]?) ∧
    (step score s a).1.trajectoryIdx = s.trajectoryIdx + 1 ∧
    (step score s a).2.reward
      = (score ((step score s a).1.obsTrajectory) (s.trajectoryIdx + 1)).1 ∧
    (step score s a).2.info
      = (score ((step score s a).1.obsTrajectory) (s.trajectoryIdx + 1)).2 ∧
    (step score s a).2.obs = (step score s a).1.obsTrajectory ∧
    (step score s a).2.terminated = decide (s.maxLen ≤ s.trajectoryIdx + 1) ∧
    (step score s a).2.truncated = false ∧
    (step score s a).1.totalReward = s.totalReward + (step score s a).2.reward := by
  refine ⟨?_, ?_, rfl, rfl, rfl, rfl, rfl, rfl, rfl⟩
  · exact List.getElem?_set_self (by omega)
  · intro k hk
    exact List.getElem?_set_ne (Ne.symm hk)

/-- C6 witness: the contract applied to the freshly constructed 2-step,
1-pitch environment and the action [9]. -/
theorem step_contract_witness :
    (initState 2 1 none).obsTrajectory.length = (initState 2 1 none).maxLen ∧
    (initState 2 1 none).trajectoryIdx < (initState 2 1 none).maxLen ∧
    ((step (fun _ t => ((t : Rat), ([] : Ledger))) (initState 2 1 none)
        [9]).1.obsTrajectory[(initState 2 1 none).trajectoryIdx]? = some [9] ∧
    (∀ k, k ≠ (initState 2 1 none).trajectoryIdx →
      (step (fun _ t => ((t : Rat), ([] : Ledger))) (initState 2 1 none)
        [9]).1.obsTrajectory[k]? = (initState 2 1 none).obsTrajectory[k]?) ∧
    (step (fun _ t => ((t : Rat), ([] : Ledger))) (initState 2 1 none)
        [9]).1.trajectoryIdx = (initState 2 1 none).trajectoryIdx + 1 ∧
    (step (fun _ t => ((t : Rat), ([] : Ledger))) (initState 2 1 none)
        [9]).2.reward
      = ((fun (_ : List (List Int)) (t : Nat) => ((t : Rat), ([] : Ledger)))
          ((step (fun _ t => ((t : Rat), ([] : Ledger))) (initState 2 1 none)
            [9]).1.obsTrajectory) ((initState 2 1 none).trajectoryIdx + 1)).1 ∧
    (step (fun _ t => ((t : Rat), ([] : Ledger))) (initState 2 1 none)
        [9]).2.info
      = ((fun (_ : List (List Int)) (t : Nat) => ((t : Rat), ([] : Ledger)))
          ((step (fun _ t => ((t : Rat), ([] : Ledger))) (initState 2 1 none)
            [9]).1.obsTrajectory) ((initState 2 1 none).trajectoryIdx + 1)).2 ∧
    (step (fun _ t => ((t : Rat), ([] : Ledger))) (initState 2 1 none)
        [9]).2.obs
      = (step (fun _ t => ((t : Rat), ([] : Ledger))) (initState 2 1 none)
          [9]).1.obsTrajectory ∧
    (step (fun _ t => ((t : Rat), ([] : Ledger))) (initState 2 1 none)
        [9]).2.terminated
      = decide ((initState 2 1 none).maxLen ≤ (initState 2 1 none).trajectoryIdx + 1) ∧
    (step (fun _ t => ((t : Rat), ([] : Ledger))) (initState 2 1 none)
        [9]).2.truncated = false ∧
    (step (fun _ t => ((t : Rat), ([] : Ledger))) (initState 2 1 none)
        [9]).1.totalReward
      = (initState 2 1 none).totalReward
          + (step (fun _ t => ((t : Rat), ([] : Ledger))) (initState 2 1 none)
              [9]).2.reward) :=
  ⟨rfl, by decide,
   step_contract (fun _ t => ((t : Rat), ([] : Ledger))) (initState 2 1 none)
     [9] rfl (by decide)⟩

/-- C7: each step merges the scoring function's info into the ledger with
accumulate-or-create-at-zero semantics: every key present in the info
gets its value added onto the existing ledger entry for that key (an
absent entry counting as 0, after which the key is present), and the
entry of every key not present in the info is left exactly as it was —
accumulation only, never overwrite. -/
theorem ledger_accumulates (score : Score) (s : EnvState) (a : List Int)
    (hnd : (((score (s.obsTrajectory.set s.trajectoryIdx a)
        (s.trajectoryIdx + 1)).2).map Prod.fst).Nodup) :
    (∀ k v,
      ledgerGet ((score (s.obsTrajectory.set s.trajectoryIdx a)
          (s.trajectoryIdx + 1)).2) k = some v →
      ledgerGet ((step score s a).1.rewardsLedger) k
        = some ((ledgerGet s.rewardsLedger k).getD 0 + v)) ∧
    (∀ k,
      ledgerGet ((score (s.obsTrajectory.set s.trajectoryIdx a)
          (s.trajectoryIdx + 1)).2) k = none →
      ledgerGet ((step score s a).1.rewardsLedger) k
        = ledgerGet s.rewardsLedger k) := by
  constructor
  · intro k v h
    exact ledgerGet_addAll_of_some _ _ _ _ hnd h
  · intro k h
    exact ledgerGet_addAll_of_none _ _ _ h

/-- C7 witness: the accumulation contract applied to the fresh 2-step,
1-pitch environment with a scoring function reporting components "a" and
"b". -/
theorem ledger_accumulates_witness :
    (((fun (_ : List (List Int)) (_ : Nat) =>
            ((5 : Rat), ([("a", (2 : Rat)), ("b", 3)] : Ledger)))
          ((initState 2 1 none).obsTrajectory.set
            (initState 2 1 none).trajectoryIdx [7])
          ((initState 2 1 none).trajectoryIdx + 1)).2.map Prod.fst).Nodup ∧
    ((∀ k v,
        ledgerGet (((fun (_ : List (List Int)) (_ : Nat) =>
              ((5 : Rat), ([("a", (2 : Rat)), ("b", 3)] : Ledger)))
            ((initState 2 1 none).obsTrajectory.set
              (initState 2 1 none).trajectoryIdx [7])
            ((initState 2 1 none).trajectoryIdx + 1)).2) k = some v →
        ledgerGet ((step
            (fun _ _ => ((5 : Rat), ([("a", (2 : Rat)), ("b", 3)] : Ledger)))
            (initState 2 1 none) [7]).1.rewardsLedger) k
          = some ((ledgerGet (initState 2 1 none).rewardsLedger k).getD 0 + v)) ∧
      (∀ k,
        ledgerGet (((fun (_ : List (List Int)) (_ : Nat) =>
              ((5 : Rat), ([("a", (2 : Rat)), ("b", 3)] : Ledger)))
            ((initState 2 1 none).obsTrajectory.set
              (initState 2 1 none).trajectoryIdx [7])
            ((initState 2 1 none).trajectoryIdx + 1)).2) k = none →
        ledgerGet ((step
            (fun _ _ => ((5 : Rat), ([("a", (2 : Rat)), ("b", 3)] : Ledger)))
            (initState 2 1 none) [7]).1.rewardsLedger) k
          = ledgerGet (initState 2 1 none).rewardsLedger k)) :=
  ⟨by decide,
   ledger_accumulates
     (fun _ _ => ((5 : Rat), ([("a", (2 : Rat)), ("b", 3)] : Ledger)))
     (initState 2 1 none) [7] (by decide)⟩

/-- C8 counterexample: the declared action space accepts the vector [37]
(Gym Box bounds are inclusive, matching the code comment's 36 pitches
plus two special codes), yet 37 lies outside the claimed half-open range
with exclusive upper bound 37. -/
theorem action_space_not_half_open :
    (action_space 1).memVec [(37 : Int)] ∧ ¬ ((37 : Int) < 37) := by
  constructor
  · refine ⟨rfl, ?_⟩
    intro x hx
    simp only [List.mem_singleton] at hx
    subst hx
    exact ⟨by norm_num [action_space], by norm_num [action_space]⟩
  · omega

/-- C8 (amended): the declared action domain is the set of vectors of
numPitches integers each within the closed range from 0 to 37 (inclusive
upper bound, valid values 0..37), and the declared observation domain is
the set of arrays of shape maxLength x numPitches with the same closed
per-element bound. -/
theorem declared_spaces_closed_bounds (p N : Nat) (v : List Int)
    (m : List (List Int)) :
    ((action_space p).memVec v ↔
      v.length = p ∧ ∀ x ∈ v, 0 ≤ x ∧ x ≤ 37) ∧
    ((observation_space N p).memMat m ↔
      m.length = N ∧ (∀ row ∈ m, row.length = p) ∧
        ∀ row ∈ m, ∀ x ∈ row, 0 ≤ x ∧ x ≤ 37) := by
  constructor
  · unfold BoxSpace.memVec action_space
    simp [eq_comm]
  · unfold BoxSpace.memMat observation_space
    constructor
    · rintro ⟨⟨c, hc, hrows⟩, hb⟩
      simp only [List.cons.injEq, and_true] at hc
      refine ⟨hc.1.symm, ?_, hb⟩
      intro row hrow
      rw [hrows row hrow, hc.2]
    · rintro ⟨h1, h2, h3⟩
      exact ⟨⟨p, by simp [h1], h2⟩, h3⟩

/-- C9: `save_midi` writes exactly one file, under the claimed naming
scheme (ts, then the month-day-year_hourminute timestamp, then _ep, the
row count and .midi), and writes none when no directory is configured;
`render` also writes exactly one file when a directory is configured, but
its format string carries the extra `%s` directive, so the name it
produces interposes the epoch seconds between the minutes and `_ep`,
contradicting the claimed scheme; evaluated at the concrete local time
01-02-03 04:05 with epoch seconds 987654321 and 4 rendered rows. -/
theorem render_fname_carries_epoch_seconds :
    (∀ (score : Score) (encode : List (List Int) → List Nat) trajectory t,
      (save_midi score encode trajectory none t).filesWritten = []) ∧
    (∀ (encode : List (List Int) → List Nat) (s : EnvState) mode t,
      (render encode { s with midiSavedir := none } mode t).2.filesWritten
        = []) ∧
    (∀ (score : Score) (encode : List (List Int) → List Nat) trajectory dir t,
      (save_midi score encode trajectory (some dir) t).filesWritten
        = [dir ++ "/" ++ save_midi_fname t trajectory.length]) ∧
    (∀ (encode : List (List Int) → List Nat) (s : EnvState) mode t dir,
      (render encode { s with midiSavedir := some dir } mode t).2.filesWritten
        = [dir ++ "/" ++ render_fname t s.obsTrajectory.length]) ∧
    save_midi_fname
        { mon := 1, mday := 2, year2 := 3, hour := 4, minute := 5,
          epochSecs := 987654321 } 4
      = "ts01-02-03_0405_ep4.midi" ∧
    render_fname
        { mon := 1, mday := 2, year2 := 3, hour := 4, minute := 5,
          epochSecs := 987654321 } 4
      = "ts01-02-03_0405987654321_ep4.midi" ∧
    render_fname
        { mon := 1, mday := 2, year2 := 3, hour := 4, minute := 5,
          epochSecs := 987654321 } 4
      ≠ "ts01-02-03_0405_ep4.midi" := by
  refine ⟨fun _ _ _ _ => rfl, fun _ _ _ _ => rfl, fun _ _ _ _ _ => rfl,
    fun _ _ _ _ _ => rfl, ?_, ?_, ?_⟩ <;> decide

/-- C10: `render` never mutates the environment: for every state, mode
string and observed wall-clock time, the post-state is the very state the
call was made on, so the trajectory buffer, the cursor, the cumulative
reward and the partial-reward ledger are all unchanged. -/
theorem render_leaves_state_unchanged (encode : List (List Int) → List Nat)
    (s : EnvState) (mode : String) (t : Tm) :
    (render encode s mode t).1 = s ∧
    (render encode s mode t).1.obsTrajectory = s.obsTrajectory ∧
    (render encode s mode t).1.trajectoryIdx = s.trajectoryIdx ∧
    (render encode s mode t).1.totalReward = s.totalReward ∧
    (render encode s mode t).1.rewardsLedger = s.rewardsLedger :=
  ⟨rfl, rfl, rfl, rfl, rfl⟩

end RoboNotes
